import Mathlib

/-!
Shallow embedding of the CSV transformation engine
(`src/transformers/DataTransformer.ts`), the application pipeline step that
invokes row deletion (`CSVConverterApp.execute`), and the configuration
validator (`ConfigurationValidator`), together with theorems checking the
specification's claims against these definitions.

Tables are headers plus rows of string cells.  JavaScript `Map` lookups built
with `forEach` + `set` resolve duplicate header names to the *last* occurrence;
`row[i] || ""` reads a missing (or empty) cell as the empty string; thrown
`CSVConverterError`s are modelled as `Except String` with the error's message
string.
-/

namespace CSVConv

/-- `CSVData` from `models/CSVData.ts`: ordered headers plus rows of cells. -/
structure CSVData where
  headers : List String
  rows : List (List String)
deriving Repr, DecidableEq

/-- The `value` field of a `DeleteCondition`: `string | string[]`. -/
inductive CondValue where
  | single (s : String)
  | multi (vals : List String)
deriving Repr, DecidableEq

/-- `DeleteCondition` from the models: a column name and a value (or list). -/
structure DeleteCondition where
  column : String
  value : CondValue
deriving Repr, DecidableEq

/-- Index of the *last* occurrence of `name` in `headers`, as produced by
`headers.forEach((h, i) => map.set(h, i))` (later `set` calls overwrite). -/
def headerIndex : List String → String → Option Nat
  | [], _ => none
  | h :: t, name =>
    match headerIndex t name with
    | some i => some (i + 1)
    | none => if h = name then some 0 else none

/-- `row[idx] || ""`: a missing cell (and the empty cell) reads as `""`. -/
def cellAt (row : List String) (idx : Nat) : String := row.getD idx ""

/-- The `conditions.every(...)` predicate inside `DataDeleterImpl.deleteRows`:
a row matches when every condition's cell equals the single value or is a
member of the value list (`columnIndex === undefined` yields `false`). -/
def rowMatchesAll (headers : List String) (conds : List DeleteCondition)
    (row : List String) : Bool :=
  conds.all fun c =>
    match headerIndex headers c.column with
    | none => false
    | some idx =>
      match c.value with
      | .single s => cellAt row idx == s
      | .multi vals => vals.contains (cellAt row idx)

/-- `DataDeleterImpl.deleteRows`: fail on condition columns absent from the
headers (one message joining all of them), otherwise keep exactly the rows
that do not match all conditions; headers are passed through. -/
def deleteRows (data : CSVData) (conds : List DeleteCondition) :
    Except String CSVData :=
  let missingColumns :=
    (conds.map (·.column)).filter (fun c => !(data.headers.contains c))
  if missingColumns.isEmpty then
    .ok { headers := data.headers
          rows := data.rows.filter (fun row => !(rowMatchesAll data.headers conds row)) }
  else
    .error ("Invalid delete conditions: Delete condition references non-existent column: '"
      ++ String.intercalate "', '" missingColumns ++ "'")

/-- The inner `order.map` of `reorderColumns`: resolve each requested header
to its index, throwing `列 '...' が見つかりません` when the map misses
(unreachable after the missing-column pre-check). -/
def resolveIndices (headers : List String) : List String → Except String (List Nat)
  | [] => .ok []
  | h :: t =>
    match headerIndex headers h with
    | some i => (resolveIndices headers t).map (fun rest => i :: rest)
    | none => .error ("列 '" ++ h ++ "' が見つかりません")

/-- `DataTransformerImpl.reorderColumns`: fail on requested columns absent
from the headers (one message joining all of them), otherwise project each
row onto the requested columns, reading missing cells as `""`. -/
def reorderColumns (data : CSVData) (order : List String) :
    Except String CSVData :=
  let missingColumns := order.filter (fun c => !(data.headers.contains c))
  if missingColumns.isEmpty then
    (resolveIndices data.headers order).map fun columnIndices =>
      { headers := order
        rows := data.rows.map (fun row => columnIndices.map (fun i => cellAt row i)) }
  else
    .error ("columnOrderで指定された列 '" ++ String.intercalate ", " missingColumns
      ++ "' が入力CSVに見つかりません")

/-- One in-place update of `replaceValues`: when the cell at `idx` exists
(`currentValue !== undefined`) and the replacement map has it as a key, set
the cell to the mapped value; otherwise leave the row unchanged. -/
def applyColumnRepl (idx : Nat) (repls : List (String × String))
    (row : List String) : List String :=
  match row.get? idx with
  | none => row
  | some v =>
    match repls.lookup v with
    | some nv => row.set idx nv
    | none => row

/-- `DataTransformerImpl.replaceValues`: for each configured column that
exists among the headers (unknown columns are skipped), rewrite every row's
cell on an exact match; headers are passed through. -/
def replaceValues (data : CSVData)
    (replacements : List (String × List (String × String))) : CSVData :=
  { headers := data.headers
    rows := replacements.foldl
      (fun rows p =>
        match headerIndex data.headers p.1 with
        | none => rows
        | some idx => rows.map (applyColumnRepl idx p.2))
      data.rows }

/-- A header-mapping target: `string | string[]`. -/
inductive HeaderTarget where
  | one (s : String)
  | many (names : List String)
deriving Repr, DecidableEq

/-- JavaScript truthiness of `mappings[originalHeader]` as tested by
`if (mapping)`: the empty string is falsy, every array (even `[]`) is truthy. -/
def truthyTarget : HeaderTarget → Bool
  | .one s => !(s == "")
  | .many _ => true

/-- `mappings[originalHeader]` followed by the `if (mapping)` truthiness test:
a falsy target behaves as if no mapping entry existed. -/
def headerEntry (m : List (String × HeaderTarget)) (h : String) :
    Option HeaderTarget :=
  match m.lookup h with
  | some t => if truthyTarget t then some t else none
  | none => none

/-- The header loop of `mapHeaders`: builds the new header list and the
per-old-index `headerMap` (the mapping target, or `none` for pass-through). -/
def buildHeaderInfo (m : List (String × HeaderTarget)) :
    List String → List String × List (Option HeaderTarget)
  | [] => ([], [])
  | h :: t =>
    let rest := buildHeaderInfo m t
    match headerEntry m h with
    | some (.many names) => (names ++ rest.1, some (.many names) :: rest.2)
    | some (.one s) => (s :: rest.1, some (.one s) :: rest.2)
    | none => (h :: rest.1, none :: rest.2)

/-- The row loop of `mapHeaders`: each cell is emitted once per expanded
column of its header's mapping (array target), and once otherwise; cells
beyond the header map (rows longer than the headers) pass through once. -/
def mapRowCells : List (Option HeaderTarget) → List String → List String
  | _, [] => []
  | [], c :: cs => c :: mapRowCells [] cs
  | some (.many names) :: hm, c :: cs =>
      List.replicate names.length c ++ mapRowCells hm cs
  | some (.one _) :: hm, c :: cs => c :: mapRowCells hm cs
  | none :: hm, c :: cs => c :: mapRowCells hm cs

/-- `DataTransformerImpl.mapHeaders`. -/
def mapHeaders (data : CSVData) (m : List (String × HeaderTarget)) : CSVData :=
  let info := buildHeaderInfo m data.headers
  { headers := info.1, rows := data.rows.map (mapRowCells info.2) }

/-- A fixed-column value: `string | number`, string-coerced on write. -/
inductive FixedVal where
  | str (s : String)
  | num (n : Int)
deriving Repr, DecidableEq

/-- `String(value)` coercion applied by `addFixedColumns`. -/
def FixedVal.toStr : FixedVal → String
  | .str s => s
  | .num n => toString n

/-- `DataTransformerImpl.addFixedColumns`: fail on fixed names already among
the headers (one message joining all of them), otherwise append the names to
the headers and the coerced values to every row. -/
def addFixedColumns (data : CSVData) (fixedColumns : List (String × FixedVal)) :
    Except String CSVData :=
  let duplicateColumns :=
    (fixedColumns.map (·.1)).filter (fun c => data.headers.contains c)
  if duplicateColumns.isEmpty then
    .ok { headers := data.headers ++ fixedColumns.map (·.1)
          rows := data.rows.map
            (fun row => row ++ fixedColumns.map (fun p => p.2.toStr)) }
  else
    .error ("固定列の名前が既存の列と重複しています: '"
      ++ String.intercalate ", " duplicateColumns ++ "'")

/-- `TransformationConfig` (the fields `transform` consumes; `none` models an
absent field, which JavaScript's `if (config.field)` skips). -/
structure TransformationConfig where
  headerMappings : Option (List (String × HeaderTarget)) := none
  fixedColumns : Option (List (String × FixedVal)) := none
  columnOrder : Option (List String) := none
  valueReplacements : Option (List (String × List (String × String))) := none
deriving Repr, DecidableEq

/-- `DataTransformerImpl.transform`: header mappings, then fixed columns,
then column reordering, then value replacements, each step skipped when its
configuration field is absent; errors of the steps propagate unchanged. -/
def transform (data : CSVData) (config : TransformationConfig) :
    Except String CSVData := do
  let d1 :=
    match config.headerMappings with
    | some m => mapHeaders data m
    | none => data
  let d2 ←
    match config.fixedColumns with
    | some fc => addFixedColumns d1 fc
    | none => pure d1
  let d3 ←
    match config.columnOrder with
    | some o => reorderColumns d2 o
    | none => pure d2
  let d4 :=
    match config.valueReplacements with
    | some r => replaceValues d3 r
    | none => d3
  pure d4

/-- Step 3 of `CSVConverterApp.execute`: run `deleteRows` only when
`config.deleteConditions && config.deleteConditions.length > 0`, otherwise
pass the parsed data through untouched. -/
def applyDeletionStep (conds : Option (List DeleteCondition)) (data : CSVData) :
    Except String CSVData :=
  match conds with
  | some cs => if cs.length > 0 then deleteRows data cs else .ok data
  | none => .ok data

/-- `s.trim() === ""`: every character of `s` is whitespace (so trimming
leaves the empty string); a computable stand-in for trimming and comparing. -/
def isBlank (s : String) : Bool := s.data.all (·.isWhitespace)

/-- `ValidationResult` from the models. -/
structure ValidationResult where
  isValid : Bool
  errors : List String
deriving Repr, DecidableEq

/-- The per-entry loop of `ConfigurationValidator.validateHeaderMappings`:
a blank key stops the loop with one error (`break`); a blank string value, an
empty array value, and a blank array element each push one error (the inner
element loop also breaks after its first offender). -/
def entryErrors : List (String × HeaderTarget) → List String
  | [] => []
  | (key, value) :: rest =>
    if isBlank key then ["headerMappings keys must be non-empty strings"]
    else
      (match value with
       | .one s =>
         if isBlank s then
           ["headerMappings value for key '" ++ key ++ "' cannot be an empty string"]
         else []
       | .many vs =>
         (if vs.isEmpty then
            ["headerMappings array value for key '" ++ key ++ "' cannot be empty"]
          else [])
         ++ (if vs.any (fun v => isBlank v) then
               ["headerMappings array for key '" ++ key
                 ++ "' must only contain non-empty strings"]
             else []))
      ++ entryErrors rest

/-- The circular-mapping scan of `validateHeaderMappings`: walk the
string-valued entries keeping a key-to-value map (prepending models `set`
overwrites); report `A -> B` when the map already sends `B` to `A`. -/
def circularScan (rev : List (String × String)) :
    List (String × HeaderTarget) → List String
  | [] => []
  | (key, .one value) :: rest =>
    (if rev.lookup value = some key then
       ["Circular mapping detected: '" ++ key ++ "' <-> '" ++ value ++ "'"]
     else [])
    ++ circularScan ((key, value) :: rev) rest
  | (_, .many _) :: rest => circularScan rev rest

/-- `ConfigurationValidator.validateHeaderMappings` (for defined mappings of
string/array values; `undefined` is valid). -/
def validateHeaderMappings : Option (List (String × HeaderTarget)) → ValidationResult
  | none => ⟨true, []⟩
  | some m =>
    let errors := entryErrors m ++ circularScan [] m
    ⟨errors.isEmpty, errors⟩

/-- A JSON-ish value, as deep as `validateDeleteConditions` inspects one. -/
inductive JVal where
  | jstr (s : String)
  | jnum (n : Int)
  | jbool (b : Bool)
  | jnull
  | jarr (elems : List JVal)
  | jobj (fields : List (String × JVal))
deriving Repr

/-- JavaScript falsiness of a value (the `!condition` test). -/
def jsFalsy : JVal → Bool
  | .jnull => true
  | .jbool b => !b
  | .jnum n => n == 0
  | .jstr s => s == ""
  | _ => false

/-- `typeof x === "object"` (objects, arrays and `null`). -/
def typeofObject : JVal → Bool
  | .jobj _ => true
  | .jarr _ => true
  | .jnull => true
  | _ => false

/-- Property access `x[key]` for the keys the validator reads (`column`,
`value`); arrays have no such non-numeric own properties. -/
def jget : JVal → String → Option JVal
  | .jobj fields, key => fields.lookup key
  | _, _ => none

/-- The own enumerable property names seen by `for (const prop in x)`:
an object's keys in insertion order, an array's index strings. -/
def jprops : JVal → List String
  | .jobj fields => fields.map (·.1)
  | .jarr elems => (List.range elems.length).map toString
  | _ => []

/-- The inner `value[j]` loop: index of the first non-string element. -/
def firstNonStringIdx : List JVal → Nat → Option Nat
  | [], _ => none
  | .jstr _ :: rest, j => firstNonStringIdx rest (j + 1)
  | _ :: _, j => some j

/-- The `condition.column` checks of `validateDeleteConditions` for element
`i`: not a string, and blank-string, each push one error. -/
def columnErrorsAt (i : Nat) (e : JVal) : List String :=
  match jget e "column" with
  | some (.jstr c) =>
    if isBlank c then
      ["deleteConditions[" ++ toString i ++ "].column cannot be empty or whitespace-only"]
    else []
  | _ => ["deleteConditions[" ++ toString i ++ "].column must be a non-empty string"]

/-- The `condition.value` checks of `validateDeleteConditions` for element
`i`: missing/null, empty array, first non-string element, and wrong type. -/
def valueErrorsAt (i : Nat) (e : JVal) : List String :=
  match jget e "value" with
  | none => ["deleteConditions[" ++ toString i ++ "].value is required"]
  | some .jnull => ["deleteConditions[" ++ toString i ++ "].value is required"]
  | some (.jstr _) => []
  | some (.jarr vs) =>
    if vs.isEmpty then
      ["deleteConditions[" ++ toString i ++ "].value array cannot be empty"]
    else
      match firstNonStringIdx vs 0 with
      | some j =>
        ["deleteConditions[" ++ toString i ++ "].value[" ++ toString j
          ++ "] must be a string"]
      | none => []
  | some _ =>
    ["deleteConditions[" ++ toString i ++ "].value must be a string or an array of strings"]

/-- The extra-property scan of `validateDeleteConditions` for element `i`:
one error per own property other than `column` and `value`. -/
def extraErrorsAt (i : Nat) (e : JVal) : List String :=
  (jprops e).filterMap fun p =>
    if p == "column" || p == "value" then none
    else some ("deleteConditions[" ++ toString i ++ "] contains unexpected property '"
      ++ p ++ "'")

/-- The errors `validateDeleteConditions` pushes for element `i`: the
object check, then the `column` checks, then the `value` checks, then one
error per unexpected property name. -/
def condErrorsAt (i : Nat) (e : JVal) : List String :=
  if jsFalsy e || !typeofObject e then
    ["deleteConditions[" ++ toString i ++ "] must be an object"]
  else
    columnErrorsAt i e ++ valueErrorsAt i e ++ extraErrorsAt i e

/-- The indexed `for` loop of `validateDeleteConditions`, starting at `i`. -/
def deleteCondErrorsFrom (i : Nat) : List JVal → List String
  | [] => []
  | e :: rest => condErrorsAt i e ++ deleteCondErrorsFrom (i + 1) rest

/-- `ConfigurationValidator.validateDeleteConditions` on a defined list
(`undefined` is valid; the non-array input branch is outside this model). -/
def validateDeleteConditions : Option (List JVal) → ValidationResult
  | none => ⟨true, []⟩
  | some cs =>
    let errors := deleteCondErrorsFrom 0 cs
    ⟨errors.isEmpty, errors⟩

/-! Specification-side definitions, written from the claims' wording, to be
compared with the embedded operations. -/

/-- Index of the first occurrence of `name` in `headers` (the natural reading
of "the cell at the condition's column" for duplicate-free headers). -/
def firstIdxOf : List String → String → Nat
  | [], _ => 0
  | h :: t, name => if h = name then 0 else firstIdxOf t name + 1

/-- Spec reading of "a condition matches a row": the cell at the condition's
column equals the single value, or is a member of the value list. -/
def specCondMatches (headers : List String) (row : List String)
    (c : DeleteCondition) : Bool :=
  match c.value with
  | .single s => cellAt row (firstIdxOf headers c.column) == s
  | .multi vals => decide (cellAt row (firstIdxOf headers c.column) ∈ vals)

/-- Spec reading of the header expansion of `mapHeaders`: a listed entry is
replaced by all listed names in place, a string entry by that name, and an
unmapped header passes through. -/
def specExpandHeader (m : List (String × HeaderTarget)) (h : String) :
    List String :=
  match m.lookup h with
  | some (.many names) => names
  | some (.one s) => [s]
  | none => [h]

/-- Spec reading of the value fan-out: a cell under a listed header mapping
is copied once per listed name; every other cell is emitted once. -/
def specFanCell (m : List (String × HeaderTarget)) (h : String) (c : String) :
    List String :=
  match m.lookup h with
  | some (.many names) => List.replicate names.length c
  | _ => [c]

/-- Spec reading of a mapped row: cells paired with their headers fan out,
and cells beyond the header count pass through. -/
def specMapRow (m : List (String × HeaderTarget)) (headers : List String)
    (row : List String) : List String :=
  ((row.zip headers).flatMap fun p => specFanCell m p.2 p.1)
    ++ row.drop headers.length

/-- Step 1 of the documented order: header mapping, skipped when absent. -/
def headerMappingStep (config : TransformationConfig) (d : CSVData) : CSVData :=
  match config.headerMappings with
  | some m => mapHeaders d m
  | none => d

/-- Step 2 of the documented order: fixed-column addition, skipped when absent. -/
def fixedColumnsStep (config : TransformationConfig) (d : CSVData) :
    Except String CSVData :=
  match config.fixedColumns with
  | some fc => addFixedColumns d fc
  | none => .ok d

/-- Step 3 of the documented order: column reordering, skipped when absent. -/
def columnOrderStep (config : TransformationConfig) (d : CSVData) :
    Except String CSVData :=
  match config.columnOrder with
  | some o => reorderColumns d o
  | none => .ok d

/-- Step 4 of the documented order: value replacement, skipped when absent. -/
def valueReplacementStep (config : TransformationConfig) (d : CSVData) : CSVData :=
  match config.valueReplacements with
  | some r => replaceValues d r
  | none => d

/-- Pad a row with empty strings up to `n` cells (the claimed reading of a
short row as having empty-string values at the missing trailing positions). -/
def padRow (n : Nat) (row : List String) : List String :=
  row ++ List.replicate (n - row.length) ""

/-- Pad every row of a table to the header count. -/
def padTable (d : CSVData) : CSVData :=
  { headers := d.headers, rows := d.rows.map (padRow d.headers.length) }

/-- Whether an engine result is a success. -/
def exceptOk {ε α : Type} : Except ε α → Bool
  | .ok _ => true
  | .error _ => false

/-- Whether a JSON-ish value is a string. -/
def isJStr : JVal → Bool
  | .jstr _ => true
  | _ => false

/-- Spec reading of a well-formed delete condition: an object with exactly
the properties `column` (a non-blank string) and `value` (a string, possibly
empty, or a non-empty list of strings). -/
def condOk : JVal → Bool
  | .jobj fields =>
    (match fields.lookup "column" with
     | some (.jstr c) => !(isBlank c)
     | _ => false)
    && (match fields.lookup "value" with
        | some (.jstr _) => true
        | some (.jarr vs) => !vs.isEmpty && vs.all isJStr
        | _ => false)
    && fields.all (fun p => p.1 == "column" || p.1 == "value")
  | _ => false

deriving instance DecidableEq for Except

/-! Shared helper lemmas. -/

theorem headerIndex_eq_none {hs : List String} {n : String} :
    headerIndex hs n = none ↔ n ∉ hs := by
  induction hs with
  | nil => simp [headerIndex]
  | cons h t ih =>
    simp only [headerIndex]
    cases hht : headerIndex t n with
    | some i =>
      have hmem : n ∈ t := by
        by_contra hnot
        rw [ih.mpr hnot] at hht
        cases hht
      simp [List.mem_cons, hmem]
    | none =>
      have hnt : n ∉ t := ih.mp hht
      by_cases heq : h = n
      · simp [heq]
      · simp only [if_neg heq, List.mem_cons]
        constructor
        · rintro - (hcase | hcase)
          · exact heq hcase.symm
          · exact hnt hcase
        · intro _; exact trivial

theorem headerIndex_isSome {hs : List String} {n : String} :
    (headerIndex hs n).isSome = true ↔ n ∈ hs := by
  cases hidx : headerIndex hs n with
  | some i =>
    simp only [Option.isSome_some, true_iff]
    by_contra hnot
    rw [headerIndex_eq_none.mpr hnot] at hidx
    cases hidx
  | none => simp [headerIndex_eq_none.mp hidx]

theorem headerIndex_nodup {hs : List String} {n : String} (hnd : hs.Nodup)
    (hmem : n ∈ hs) : headerIndex hs n = some (firstIdxOf hs n) := by
  induction hs with
  | nil => cases hmem
  | cons h t ih =>
    rw [List.nodup_cons] at hnd
    simp only [headerIndex, firstIdxOf]
    by_cases heq : h = n
    · subst heq
      rw [headerIndex_eq_none.mpr hnd.1]
      simp
    · have hmt : n ∈ t := by
        rcases List.mem_cons.mp hmem with hcase | hcase
        · exact absurd hcase.symm heq
        · exact hcase
      rw [ih hnd.2 hmt]
      simp [heq]

theorem lookup_mem {m : List (String × HeaderTarget)} {h : String}
    {t : HeaderTarget} (hl : m.lookup h = some t) : ∃ k, (k, t) ∈ m := by
  induction m with
  | nil => cases hl
  | cons hd tl ih =>
    cases hd with
    | mk k v =>
      rw [List.lookup] at hl
      by_cases hk : h == k
      · simp only [hk, if_pos rfl, Option.some.injEq] at hl
        exact ⟨k, by simp [hl]⟩
      · simp only [hk, Bool.false_eq_true, if_false] at hl
        rcases ih hl with ⟨k2, hkmem⟩
        exact ⟨k2, List.mem_cons_of_mem _ hkmem⟩

theorem mapRowCells_of_all_none :
    ∀ {hm : List (Option HeaderTarget)} (row : List String),
      (∀ x ∈ hm, x = none) → mapRowCells hm row = row := by
  intro hm row
  induction row generalizing hm with
  | nil => intro _; cases hm <;> simp [mapRowCells]
  | cons c cs ih =>
    intro hall
    cases hm with
    | nil => simp [mapRowCells, @ih [] (by intro x hx; cases hx)]
    | cons o rest =>
      have ho : o = none := hall o (List.mem_cons_self _ _)
      subst ho
      simp [mapRowCells, @ih rest (fun x hx => hall x (List.mem_cons_of_mem _ hx))]

theorem cellAt_padRow (n : Nat) (row : List String) (i : Nat) :
    cellAt (padRow n row) i = cellAt row i := by
  simp only [cellAt, padRow, List.getD_eq_getElem?_getD, List.getElem?_append]
  by_cases h : i < row.length
  · simp [h]
  · simp only [h, if_false, List.getElem?_replicate]
    rcases Nat.lt_or_ge (i - row.length) (n - row.length) with hlt | hge
    · simp [hlt, List.getElem?_eq_none (by omega : row.length ≤ i)]
    · simp [Nat.not_lt.mpr hge, List.getElem?_eq_none (by omega : row.length ≤ i)]

/-! Claim theorems. -/

/-- C7: on the mirror pair `{A: "B", B: "A"}` the header-mapping validator is
invalid with the single circular-mapping error naming both columns, while the
3-cycle `{A: "B", B: "C", C: "A"}` is not detected and validates cleanly. -/
theorem validateHeaderMappings_two_cycle_only :
    validateHeaderMappings (some [("A", .one "B"), ("B", .one "A")]) =
      ⟨false, ["Circular mapping detected: 'B' <-> 'A'"]⟩ ∧
    validateHeaderMappings
        (some [("A", .one "B"), ("B", .one "C"), ("C", .one "A")]) =
      ⟨true, []⟩ := by
  constructor <;> decide

/-- C10: with an empty condition list, `deleteRows` keeps the headers and
deletes every row (the conjunction over zero conditions holds vacuously); the
application pipeline's deletion step invokes `deleteRows` only for a present,
non-empty condition list, so an absent or empty list passes the table through. -/
theorem deleteRows_empty_conditions (d : CSVData) :
    deleteRows d [] = .ok ⟨d.headers, []⟩ ∧
    applyDeletionStep none d = .ok d ∧
    applyDeletionStep (some []) d = .ok d := by
  refine ⟨?_, rfl, rfl⟩
  simp [deleteRows, rowMatchesAll]

/-- C1: a configuration whose four transformation fields are all absent (or
present but empty) leaves the table structurally unchanged. -/
theorem transform_noop (d : CSVData) (config : TransformationConfig)
    (h1 : config.headerMappings = none ∨ config.headerMappings = some [])
    (h2 : config.fixedColumns = none ∨ config.fixedColumns = some [])
    (h3 : config.columnOrder = none)
    (h4 : config.valueReplacements = none ∨ config.valueReplacements = some []) :
    transform d config = .ok d := by
  have hmap : mapHeaders d [] = d := by
    have hfst : ∀ hs : List String, buildHeaderInfo [] hs = (hs, hs.map (fun _ => none)) := by
      intro hs
      induction hs with
      | nil => rfl
      | cons h t ih => simp [buildHeaderInfo, ih, headerEntry, List.lookup]
    simp only [mapHeaders, hfst]
    have hrows : ∀ row : List String,
        mapRowCells (d.headers.map (fun _ => none)) row = row := by
      intro row
      exact mapRowCells_of_all_none row (by simp)
    have hmaprows : ∀ rs : List (List String),
        rs.map (mapRowCells (d.headers.map (fun _ => none))) = rs := by
      intro rs
      induction rs with
      | nil => rfl
      | cons r rt ihr => simp only [List.map_cons, hrows r, ihr]
    cases d with
    | mk hs rows => simpa using hmaprows rows
  have hfix : addFixedColumns d [] = .ok d := by
    cases d with
    | mk hs rows => simp [addFixedColumns]
  have hrepl : replaceValues d [] = d := by
    cases d with
    | mk hs rows => simp [replaceValues]
  rcases h1 with h1 | h1 <;> rcases h2 with h2 | h2 <;>
    rcases h4 with h4 | h4 <;>
      simp [transform, h1, h2, h3, h4, hmap, hfix, hrepl, pure, Except.pure, Bind.bind, Except.bind]

/-- C1 witness: the no-op law applied to a concrete table under the
all-empty configuration. -/
theorem transform_noop_witness :
    transform ⟨["a", "b"], [["1", "2"], ["3"]]⟩
        ⟨some [], some [], none, some []⟩ =
      .ok ⟨["a", "b"], [["1", "2"], ["3"]]⟩ :=
  transform_noop _ _ (Or.inr rfl) (Or.inr rfl) rfl (Or.inr rfl)

theorem all_congr {α : Type} {l : List α} {p q : α → Bool}
    (h : ∀ a ∈ l, p a = q a) : l.all p = l.all q := by
  induction l with
  | nil => rfl
  | cons a t ih =>
    simp only [List.all_cons, h a (List.mem_cons_self a t),
      ih (fun b hb => h b (List.mem_cons_of_mem a hb))]

/-- C2: for duplicate-free headers containing every condition's column,
`deleteRows` keeps the headers unchanged and removes exactly the rows
matching all conditions (AND), a condition matching when the cell at its
column equals the single value or is a member of the value list. -/
theorem deleteRows_filter_spec (d : CSVData) (conds : List DeleteCondition)
    (hnd : d.headers.Nodup)
    (hcols : ∀ c ∈ conds, c.column ∈ d.headers) :
    deleteRows d conds =
      .ok ⟨d.headers,
        d.rows.filter
          (fun row => !(conds.all (specCondMatches d.headers row)))⟩ := by
  have hmiss :
      (conds.map (·.column)).filter (fun c => !(d.headers.contains c)) = [] := by
    rw [List.filter_eq_nil_iff]
    intro a ha
    rcases List.mem_map.mp ha with ⟨c, hc, rfl⟩
    simp [List.elem_eq_mem, hcols c hc]
  have hpred : ∀ row, rowMatchesAll d.headers conds row
      = conds.all (specCondMatches d.headers row) := by
    intro row
    unfold rowMatchesAll
    apply all_congr
    intro c hc
    rw [headerIndex_nodup hnd (hcols c hc)]
    unfold specCondMatches
    cases c.value with
    | single s => rfl
    | multi vals => simp [List.elem_eq_mem]
  have hfilter : d.rows.filter (fun row => !(rowMatchesAll d.headers conds row))
      = d.rows.filter (fun row => !(conds.all (specCondMatches d.headers row))) := by
    apply List.filter_congr
    intro row _
    rw [hpred row]
  simp only [deleteRows, hmiss, List.isEmpty_nil, if_pos]
  rw [hfilter]

/-- C2 witness: the spec's AND-semantics example — of the two `inactive`
rows only the `HR` one matches both conditions and is removed. -/
theorem deleteRows_filter_spec_witness :
    deleteRows ⟨["name", "status", "dept"],
        [["J", "inactive", "IT"], ["B", "inactive", "HR"]]⟩
      [⟨"status", .single "inactive"⟩, ⟨"dept", .single "HR"⟩] =
    .ok ⟨["name", "status", "dept"], [["J", "inactive", "IT"]]⟩ := by
  rw [deleteRows_filter_spec _ _ (by decide) (by decide)]
  decide

theorem headerEntry_some {m : List (String × HeaderTarget)} {h : String}
    {t : HeaderTarget} (hE : headerEntry m h = some t) : m.lookup h = some t := by
  cases hl : m.lookup h with
  | none =>
    unfold headerEntry at hE
    rw [hl] at hE
    cases hE
  | some t2 =>
    have heq : headerEntry m h = if truthyTarget t2 then some t2 else none := by
      unfold headerEntry
      rw [hl]
    rw [heq] at hE
    by_cases htr : truthyTarget t2
    · rw [if_pos htr] at hE
      exact hE
    · rw [if_neg htr] at hE
      cases hE

theorem headerEntry_eq_lookup {m : List (String × HeaderTarget)}
    (hT : ∀ p ∈ m, truthyTarget p.2 = true) (h : String) :
    headerEntry m h = m.lookup h := by
  unfold headerEntry
  cases hl : m.lookup h with
  | none => rfl
  | some t =>
    rcases lookup_mem hl with ⟨k, hk⟩
    have heq : (match some t with
        | some t => if truthyTarget t = true then some t else none
        | none => none) = if truthyTarget t = true then some t else none := rfl
    rw [heq, if_pos (hT (k, t) hk)]

theorem buildHeaderInfo_fst (m : List (String × HeaderTarget)) :
    ∀ hs : List String,
      (buildHeaderInfo m hs).1 = hs.flatMap (fun h =>
        match headerEntry m h with
        | some (.many names) => names
        | some (.one s) => [s]
        | none => [h]) := by
  intro hs
  induction hs with
  | nil => rfl
  | cons h t ih =>
    simp only [buildHeaderInfo, List.flatMap_cons]
    cases hE : headerEntry m h with
    | none => simp [hE, ih]
    | some tgt => cases tgt <;> simp [hE, ih]

theorem buildHeaderInfo_snd (m : List (String × HeaderTarget)) :
    ∀ hs : List String, (buildHeaderInfo m hs).2 = hs.map (headerEntry m) := by
  intro hs
  induction hs with
  | nil => rfl
  | cons h t ih =>
    simp only [buildHeaderInfo, List.map_cons]
    cases hE : headerEntry m h with
    | none => simp [hE, ih]
    | some tgt => cases tgt <;> simp [hE, ih]

theorem mapRowCells_headerEntry (m : List (String × HeaderTarget)) :
    ∀ (hs : List String) (row : List String),
      mapRowCells (hs.map (headerEntry m)) row = specMapRow m hs row := by
  intro hs row
  induction row generalizing hs with
  | nil => cases hs <;> simp [mapRowCells, specMapRow]
  | cons c cs ih =>
    cases hs with
    | nil =>
      have h0 : mapRowCells ([] : List (Option HeaderTarget)) cs = cs :=
        mapRowCells_of_all_none cs (by intro x hx; cases hx)
      simp [mapRowCells, specMapRow, h0]
    | cons hh ht =>
      have htail := ih ht
      cases hE : headerEntry m hh with
      | none =>
        have hfan : specFanCell m hh c = [c] := by
          unfold specFanCell
          cases hl : m.lookup hh with
          | none => rfl
          | some t =>
            cases t with
            | one s => rfl
            | many names =>
              exfalso
              unfold headerEntry at hE
              rw [hl] at hE
              simp [truthyTarget] at hE
        have lhs : mapRowCells (List.map (headerEntry m) (hh :: ht)) (c :: cs)
            = c :: mapRowCells (List.map (headerEntry m) ht) cs := by
          rw [List.map_cons, hE]
          rfl
        rw [lhs, htail]
        simp [specMapRow, hfan, List.append_assoc]
      | some tgt =>
        have hl : m.lookup hh = some tgt := headerEntry_some hE
        cases tgt with
        | one s =>
          have hfan : specFanCell m hh c = [c] := by
            unfold specFanCell
            rw [hl]
          have lhs : mapRowCells (List.map (headerEntry m) (hh :: ht)) (c :: cs)
              = c :: mapRowCells (List.map (headerEntry m) ht) cs := by
            rw [List.map_cons, hE]
            rfl
          rw [lhs, htail]
          simp [specMapRow, hfan, List.append_assoc]
        | many names =>
          have hfan : specFanCell m hh c = List.replicate names.length c := by
            unfold specFanCell
            rw [hl]
          have lhs : mapRowCells (List.map (headerEntry m) (hh :: ht)) (c :: cs)
              = List.replicate names.length c ++ mapRowCells (List.map (headerEntry m) ht) cs := by
            rw [List.map_cons, hE]
            rfl
          rw [lhs, htail]
          simp [specMapRow, hfan, List.append_assoc]

/-- C3: `mapHeaders` replaces each header by its mapped name(s) in place
(unmapped headers pass through), and fans each row cell out into one copy
per expanded column, provided no mapping target is blank (which the
validator guarantees; a blank 1-to-1 target is falsy and acts as unmapped). -/
theorem mapHeaders_expansion (d : CSVData) (m : List (String × HeaderTarget))
    (hT : ∀ p ∈ m, truthyTarget p.2 = true) :
    (mapHeaders d m).headers = d.headers.flatMap (specExpandHeader m) ∧
    (mapHeaders d m).rows = d.rows.map (specMapRow m d.headers) := by
  constructor
  · show (buildHeaderInfo m d.headers).1 = _
    rw [buildHeaderInfo_fst]
    simp only [headerEntry_eq_lookup hT, specExpandHeader]
    rfl
  · show d.rows.map (mapRowCells (buildHeaderInfo m d.headers).2) = _
    rw [buildHeaderInfo_snd]
    have hfun : mapRowCells (d.headers.map (headerEntry m)) = specMapRow m d.headers :=
      funext (mapRowCells_headerEntry m d.headers)
    rw [hfun]

/-- C3 witness: the spec's 1-to-many example — `full_address` expands into
`street` and `city` and the address value is duplicated into both columns. -/
theorem mapHeaders_expansion_witness :
    (mapHeaders ⟨["full_address"], [["123 Main St"]]⟩
        [("full_address", .many ["street", "city"])]).headers = ["street", "city"] ∧
    (mapHeaders ⟨["full_address"], [["123 Main St"]]⟩
        [("full_address", .many ["street", "city"])]).rows =
      [["123 Main St", "123 Main St"]] := by
  have h := mapHeaders_expansion ⟨["full_address"], [["123 Main St"]]⟩
    [("full_address", .many ["street", "city"])] (by decide)
  constructor
  · rw [h.1]
    decide
  · rw [h.2]
    decide

/-- C4: `transform` is the composition of the four step functions in the
documented fixed order — header mapping, then fixed-column addition, then
column reordering, then value replacement — each skipped when its
configuration field is absent. -/
theorem transform_fixed_order (d : CSVData) (config : TransformationConfig) :
    transform d config =
      (fixedColumnsStep config (headerMappingStep config d)).bind
        (fun d2 => (columnOrderStep config d2).map (valueReplacementStep config)) := by
  cases config with
  | mk hm fc co vr =>
    simp only [transform, headerMappingStep, fixedColumnsStep, columnOrderStep,
      valueReplacementStep]
    cases hm with
    | none =>
      cases fc with
      | none =>
        cases co with
        | none => cases vr <;> rfl
        | some o =>
          cases hro : reorderColumns d o with
          | ok b => cases vr <;>
              simp [hro, valueReplacementStep, Bind.bind, Except.bind, Except.map, pure, Except.pure]
          | error e => cases vr <;>
              simp [hro, valueReplacementStep, Bind.bind, Except.bind, Except.map, pure, Except.pure]
      | some f =>
        cases haf : addFixedColumns d f with
        | ok b =>
          cases co with
          | none => cases vr <;>
              simp [haf, valueReplacementStep, Bind.bind, Except.bind, Except.map, pure, Except.pure]
          | some o =>
            cases hro : reorderColumns b o with
            | ok b2 => cases vr <;>
                simp [haf, hro, valueReplacementStep, Bind.bind, Except.bind, Except.map, pure, Except.pure]
            | error e => cases vr <;>
                simp [haf, hro, valueReplacementStep, Bind.bind, Except.bind, Except.map, pure, Except.pure]
        | error e =>
          cases co <;> cases vr <;>
            simp [haf, valueReplacementStep, Bind.bind, Except.bind, Except.map, pure, Except.pure]
    | some mm =>
      cases fc with
      | none =>
        cases co with
        | none => cases vr <;> rfl
        | some o =>
          cases hro : reorderColumns (mapHeaders d mm) o with
          | ok b => cases vr <;>
              simp [hro, valueReplacementStep, Bind.bind, Except.bind, Except.map, pure, Except.pure]
          | error e => cases vr <;>
              simp [hro, valueReplacementStep, Bind.bind, Except.bind, Except.map, pure, Except.pure]
      | some f =>
        cases haf : addFixedColumns (mapHeaders d mm) f with
        | ok b =>
          cases co with
          | none => cases vr <;>
              simp [haf, valueReplacementStep, Bind.bind, Except.bind, Except.map, pure, Except.pure]
          | some o =>
            cases hro : reorderColumns b o with
            | ok b2 => cases vr <;>
                simp [haf, hro, valueReplacementStep, Bind.bind, Except.bind, Except.map, pure, Except.pure]
            | error e => cases vr <;>
                simp [haf, hro, valueReplacementStep, Bind.bind, Except.bind, Except.map, pure, Except.pure]
        | error e =>
          cases co <;> cases vr <;>
            simp [haf, valueReplacementStep, Bind.bind, Except.bind, Except.map, pure, Except.pure]

theorem rowMatchesAll_padRow (hs : List String) (conds : List DeleteCondition)
    (n : Nat) (row : List String) :
    rowMatchesAll hs conds (padRow n row) = rowMatchesAll hs conds row := by
  unfold rowMatchesAll
  apply all_congr
  intro c _
  cases headerIndex hs c.column with
  | none => rfl
  | some idx =>
    cases c.value with
    | single s => simp [cellAt_padRow]
    | multi vals => simp [cellAt_padRow]

theorem applyColumnRepl_length (idx : Nat) (repls : List (String × String))
    (row : List String) : (applyColumnRepl idx repls row).length = row.length := by
  unfold applyColumnRepl
  cases hg : row.get? idx with
  | none => simp [hg]
  | some v =>
    cases hl : List.lookup v repls with
    | none => simp [hg, hl]
    | some nv => simp [hg, hl]

theorem exceptOk_map {ε α β : Type} (f : α → β) (e : Except ε α) :
    exceptOk (e.map f) = exceptOk e := by
  cases e <;> rfl

/-- C5 counterexample: three operations do not treat a short row as padded
with empty strings at the missing trailing positions.  `addFixedColumns`
appends the fixed value immediately after the row's last present cell rather
than after the header count; `replaceValues` never replaces a missing cell
even when the replacement map has an entry for the empty string; and
`mapHeaders` fans out only the cells present.  Each differs from the padded
reading of the same table. -/
theorem addFixedColumns_short_row_counterexample :
    (addFixedColumns ⟨["a", "b"], [["x"]]⟩ [("c", .str "v")] =
      .ok ⟨["a", "b", "c"], [["x", "v"]]⟩ ∧
    addFixedColumns (padTable ⟨["a", "b"], [["x"]]⟩) [("c", .str "v")] =
      .ok ⟨["a", "b", "c"], [["x", "", "v"]]⟩ ∧
    addFixedColumns ⟨["a", "b"], [["x"]]⟩ [("c", .str "v")] ≠
      addFixedColumns (padTable ⟨["a", "b"], [["x"]]⟩) [("c", .str "v")]) ∧
    (replaceValues ⟨["a"], [[]]⟩ [("a", [("", "X")])] = ⟨["a"], [[]]⟩ ∧
    replaceValues (padTable ⟨["a"], [[]]⟩) [("a", [("", "X")])] = ⟨["a"], [["X"]]⟩ ∧
    replaceValues ⟨["a"], [[]]⟩ [("a", [("", "X")])] ≠
      replaceValues (padTable ⟨["a"], [[]]⟩) [("a", [("", "X")])]) ∧
    mapHeaders ⟨["a", "b"], [["v"]]⟩ [("b", .many ["x", "y"])] ≠
      mapHeaders (padTable ⟨["a", "b"], [["v"]]⟩) [("b", .many ["x", "y"])] := by
  exact ⟨⟨by decide, by decide, by decide⟩, ⟨by decide, by decide, by decide⟩, by decide⟩

/-- C5 (amended): reading missing trailing cells as empty strings is the
behaviour of `deleteRows` (matching) and `reorderColumns` (projection) —
padding the rows commutes with both — and no operation throws on account of
a short row (success depends only on headers and configuration; `mapHeaders`
and `replaceValues` are total); but `mapHeaders`, `addFixedColumns` and
`replaceValues` do not pad: they operate on the cells actually present, and
`replaceValues` leaves every row's length unchanged, never touching a
missing cell. -/
theorem short_row_policy (d : CSVData) (order : List String)
    (conds : List DeleteCondition)
    (reps : List (String × List (String × String)))
    (h : List String) (rows rows' : List (List String))
    (fc : List (String × FixedVal)) :
    reorderColumns (padTable d) order = reorderColumns d order ∧
    deleteRows (padTable d) conds = (deleteRows d conds).map padTable ∧
    (replaceValues d reps).rows.map List.length = d.rows.map List.length ∧
    exceptOk (addFixedColumns ⟨h, rows⟩ fc) = exceptOk (addFixedColumns ⟨h, rows'⟩ fc) ∧
    exceptOk (reorderColumns ⟨h, rows⟩ order) = exceptOk (reorderColumns ⟨h, rows'⟩ order) ∧
    exceptOk (deleteRows ⟨h, rows⟩ conds) = exceptOk (deleteRows ⟨h, rows'⟩ conds) := by
  cases d with
  | mk hs drows =>
  refine ⟨?_, ?_, ?_, ?_, ?_, ?_⟩
  · show reorderColumns ⟨hs, drows.map (padRow hs.length)⟩ order
      = reorderColumns ⟨hs, drows⟩ order
    simp only [reorderColumns]
    have hfun : (fun columnIndices : List Nat =>
          ({ headers := order,
             rows := List.map (fun row => List.map (fun i => cellAt row i) columnIndices)
               (List.map (padRow hs.length) drows) } : CSVData))
        = (fun columnIndices : List Nat =>
          ({ headers := order,
             rows := List.map (fun row => List.map (fun i => cellAt row i) columnIndices)
               drows } : CSVData)) := by
      funext idxs
      simp only [List.map_map]
      have : drows.map ((fun row => idxs.map (fun i => cellAt row i)) ∘ padRow hs.length)
          = drows.map (fun row => idxs.map (fun i => cellAt row i)) := by
        apply List.map_congr_left
        intro row _
        simp [Function.comp, cellAt_padRow]
      rw [this]
    rw [hfun]
  · show deleteRows ⟨hs, drows.map (padRow hs.length)⟩ conds
      = (deleteRows ⟨hs, drows⟩ conds).map padTable
    simp only [deleteRows]
    have hcomm : (List.map (padRow hs.length) drows).filter
          (fun row => !(rowMatchesAll hs conds row))
        = (drows.filter (fun row => !(rowMatchesAll hs conds row))).map
            (padRow hs.length) := by
      rw [List.filter_map]
      congr 1
      apply List.filter_congr
      intro row _
      simp [Function.comp, rowMatchesAll_padRow]
    rw [hcomm]
    cases hme : ((conds.map (·.column)).filter (fun c => !(hs.contains c))).isEmpty with
    | false => rfl
    | true => rfl
  · show ((replaceValues ⟨hs, drows⟩ reps).rows).map List.length
      = drows.map List.length
    have hgen : ∀ (reps : List (String × List (String × String)))
        (rows : List (List String)),
        ((reps.foldl (fun rows p =>
            match headerIndex hs p.1 with
            | none => rows
            | some idx => rows.map (applyColumnRepl idx p.2)) rows).map List.length)
          = rows.map List.length := by
      intro reps
      induction reps with
      | nil => intro rows; rfl
      | cons p ps ih =>
        intro rows
        rw [List.foldl_cons, ih]
        cases headerIndex hs p.1 with
        | none => rfl
        | some idx =>
          simp only [List.map_map]
          apply List.map_congr_left
          intro row _
          simp [Function.comp, applyColumnRepl_length]
    exact hgen reps drows
  · simp only [addFixedColumns]
    cases hme : ((fc.map (·.1)).filter (fun c => h.contains c)).isEmpty <;> rfl
  · simp only [reorderColumns]
    cases hme : (order.filter (fun c => !(h.contains c))).isEmpty with
    | false => rfl
    | true =>
      cases hri : resolveIndices h order with
      | error e => rfl
      | ok idxs => rfl
  · simp only [deleteRows]
    cases hme : ((conds.map (·.column)).filter (fun c => !(h.contains c))).isEmpty <;> rfl

/-- C6: each structural failure is one error whose message joins every
offending column name of that scan with commas: `reorderColumns` over
requested columns missing from the headers, `deleteRows` over condition
columns missing from the headers, and `addFixedColumns` over fixed names
already present among the headers. -/
theorem structural_errors_list_all
    (d1 : CSVData) (order : List String)
    (h1 : order.filter (fun c => !(d1.headers.contains c)) ≠ [])
    (d2 : CSVData) (conds : List DeleteCondition)
    (h2 : (conds.map (·.column)).filter (fun c => !(d2.headers.contains c)) ≠ [])
    (d3 : CSVData) (fc : List (String × FixedVal))
    (h3 : (fc.map (·.1)).filter (fun c => d3.headers.contains c) ≠ []) :
    reorderColumns d1 order =
      .error ("columnOrderで指定された列 '"
        ++ String.intercalate ", " (order.filter (fun c => !(d1.headers.contains c)))
        ++ "' が入力CSVに見つかりません") ∧
    deleteRows d2 conds =
      .error ("Invalid delete conditions: Delete condition references non-existent column: '"
        ++ String.intercalate "', '"
            ((conds.map (·.column)).filter (fun c => !(d2.headers.contains c)))
        ++ "'") ∧
    addFixedColumns d3 fc =
      .error ("固定列の名前が既存の列と重複しています: '"
        ++ String.intercalate ", " ((fc.map (·.1)).filter (fun c => d3.headers.contains c))
        ++ "'") := by
  refine ⟨?_, ?_, ?_⟩
  · simp only [reorderColumns]
    cases hne : (order.filter (fun c => !(d1.headers.contains c))).isEmpty with
    | true => exact absurd (List.isEmpty_iff.mp hne) h1
    | false => rfl
  · simp only [deleteRows]
    cases hne : ((conds.map (·.column)).filter (fun c => !(d2.headers.contains c))).isEmpty with
    | true => exact absurd (List.isEmpty_iff.mp hne) h2
    | false => rfl
  · simp only [addFixedColumns]
    cases hne : ((fc.map (·.1)).filter (fun c => d3.headers.contains c)).isEmpty with
    | true => exact absurd (List.isEmpty_iff.mp hne) h3
    | false => rfl

/-- C6 witness: two missing reorder targets, two missing delete-condition
columns, and two colliding fixed names, each pair joined in one message. -/
theorem structural_errors_list_all_witness :
    reorderColumns ⟨["a"], []⟩ ["x", "y"] =
      .error "columnOrderで指定された列 'x, y' が入力CSVに見つかりません" ∧
    deleteRows ⟨["a"], []⟩ [⟨"p", .single "1"⟩, ⟨"q", .single "2"⟩] =
      .error "Invalid delete conditions: Delete condition references non-existent column: 'p', 'q'" ∧
    addFixedColumns ⟨["a", "b"], []⟩ [("a", .str "1"), ("b", .num 2)] =
      .error "固定列の名前が既存の列と重複しています: 'a, b'" := by
  have h := structural_errors_list_all ⟨["a"], []⟩ ["x", "y"] (by decide)
    ⟨["a"], []⟩ [⟨"p", .single "1"⟩, ⟨"q", .single "2"⟩] (by decide)
    ⟨["a", "b"], []⟩ [("a", .str "1"), ("b", .num 2)] (by decide)
  refine ⟨?_, ?_, ?_⟩
  · rw [h.1]; decide
  · rw [h.2.1]; decide
  · rw [h.2.2]; decide

theorem isEmpty_append (a b : List String) :
    (a ++ b).isEmpty = (a.isEmpty && b.isEmpty) := by
  cases a <;> simp [List.isEmpty]

theorem firstNonStringIdx_none : ∀ (vs : List JVal) (k : Nat),
    firstNonStringIdx vs k = none ↔ vs.all isJStr = true := by
  intro vs
  induction vs with
  | nil => intro k; simp [firstNonStringIdx]
  | cons v rest ih =>
    intro k
    cases v with
    | jstr s => simp [firstNonStringIdx, isJStr, ih (k + 1)]
    | jnum n => simp [firstNonStringIdx, isJStr]
    | jbool b => simp [firstNonStringIdx, isJStr]
    | jnull => simp [firstNonStringIdx, isJStr]
    | jarr es => simp [firstNonStringIdx, isJStr]
    | jobj fs => simp [firstNonStringIdx, isJStr]

theorem columnErrorsAt_nil_iff (i : Nat) (fields : List (String × JVal)) :
    (columnErrorsAt i (.jobj fields) = []) ↔
      (match fields.lookup "column" with
       | some (.jstr c) => !(isBlank c)
       | _ => false) = true := by
  simp only [columnErrorsAt, jget]
  cases fields.lookup "column" with
  | none => simp
  | some v =>
    cases v with
    | jstr c => cases hb : isBlank c <;> simp [hb]
    | jnum n => simp
    | jbool b => simp
    | jnull => simp
    | jarr es => simp
    | jobj fs => simp

theorem valueErrorsAt_nil_iff (i : Nat) (fields : List (String × JVal)) :
    (valueErrorsAt i (.jobj fields) = []) ↔
      (match fields.lookup "value" with
       | some (.jstr _) => true
       | some (.jarr vs) => !vs.isEmpty && vs.all isJStr
       | _ => false) = true := by
  simp only [valueErrorsAt, jget]
  cases fields.lookup "value" with
  | none => simp
  | some v =>
    cases v with
    | jstr s => simp
    | jnum n => simp
    | jbool b => simp
    | jnull => simp
    | jobj fs => simp
    | jarr vs =>
      cases he : vs.isEmpty with
      | true => simp [he]
      | false =>
        cases hf : firstNonStringIdx vs 0 with
        | some j =>
          have hall : vs.all isJStr = false := by
            cases hallc : vs.all isJStr with
            | false => rfl
            | true =>
              rw [(firstNonStringIdx_none vs 0).mpr hallc] at hf
              cases hf
          simp [he, hf, hall]
        | none =>
          have hall := (firstNonStringIdx_none vs 0).mp hf
          simp [he, hf, hall]

theorem extraErrorsAt_nil_iff (i : Nat) (fields : List (String × JVal)) :
    (extraErrorsAt i (.jobj fields) = []) ↔
      fields.all (fun p => p.1 == "column" || p.1 == "value") = true := by
  simp only [extraErrorsAt, jprops]
  rw [List.filterMap_eq_nil_iff]
  constructor
  · intro hf
    rw [List.all_eq_true]
    intro p hp
    have h1 := hf p.1 (List.mem_map.mpr ⟨p, hp, rfl⟩)
    cases hc : (p.1 == "column" || p.1 == "value") with
    | true => rfl
    | false =>
      rw [if_neg (by simp [hc])] at h1
      cases h1
  · intro hall a ha
    rcases List.mem_map.mp ha with ⟨p, hp, rfl⟩
    have hcv := List.all_eq_true.mp hall p hp
    rw [if_pos hcv]

theorem condErrorsAt_nil_iff (i : Nat) (e : JVal) :
    (condErrorsAt i e = []) ↔ condOk e = true := by
  cases e with
  | jstr s => simp [condErrorsAt, condOk, jsFalsy, typeofObject]
  | jnum n => simp [condErrorsAt, condOk, jsFalsy, typeofObject]
  | jbool b => simp [condErrorsAt, condOk, jsFalsy, typeofObject]
  | jnull => simp [condErrorsAt, condOk, jsFalsy, typeofObject]
  | jarr es =>
    simp [condErrorsAt, condOk, jsFalsy, typeofObject, columnErrorsAt, jget]
  | jobj fields =>
    have hcond : (jsFalsy (JVal.jobj fields) || !typeofObject (JVal.jobj fields)) = false := rfl
    rw [condErrorsAt, hcond]
    simp only [Bool.false_eq_true, if_false, List.append_eq_nil]
    rw [condOk]
    simp only [Bool.and_eq_true]
    constructor
    · rintro ⟨⟨hcol, hval⟩, hextra⟩
      exact ⟨⟨(columnErrorsAt_nil_iff i fields).mp hcol,
        (valueErrorsAt_nil_iff i fields).mp hval⟩,
        (extraErrorsAt_nil_iff i fields).mp hextra⟩
    · rintro ⟨⟨hcol, hval⟩, hextra⟩
      exact ⟨⟨(columnErrorsAt_nil_iff i fields).mpr hcol,
        (valueErrorsAt_nil_iff i fields).mpr hval⟩,
        (extraErrorsAt_nil_iff i fields).mpr hextra⟩

theorem deleteCondErrorsFrom_isEmpty : ∀ (cs : List JVal) (i : Nat),
    (deleteCondErrorsFrom i cs).isEmpty = cs.all condOk := by
  intro cs
  induction cs with
  | nil => intro i; rfl
  | cons e rest ih =>
    intro i
    rw [deleteCondErrorsFrom, isEmpty_append, ih (i + 1), List.all_cons]
    congr 1
    cases hc : condOk e with
    | true =>
      have hnil : condErrorsAt i e = [] := (condErrorsAt_nil_iff i e).mpr hc
      simp [hnil]
    | false =>
      cases hn : (condErrorsAt i e).isEmpty with
      | false => rfl
      | true =>
        exfalso
        have hnil := (condErrorsAt_nil_iff i e).mp (List.isEmpty_iff.mp hn)
        rw [hnil] at hc
        cases hc

theorem mem_deleteCondErrorsFrom :
    ∀ (cs : List JVal) (k i : Nat) (e : JVal) (msg : String),
      cs[i]? = some e → msg ∈ condErrorsAt (k + i) e →
      msg ∈ deleteCondErrorsFrom k cs := by
  intro cs
  induction cs with
  | nil => intro k i e msg hget _; cases hget
  | cons c rest ih =>
    intro k i e msg hget hmem
    cases i with
    | zero =>
      rw [List.getElem?_cons_zero] at hget
      injection hget with hce
      subst hce
      rw [deleteCondErrorsFrom]
      exact List.mem_append_left _ hmem
    | succ n =>
      rw [List.getElem?_cons_succ] at hget
      rw [deleteCondErrorsFrom]
      apply List.mem_append_right
      apply ih (k + 1) n e msg hget
      have harith : k + (n + 1) = (k + 1) + n := by omega
      rw [harith] at hmem
      exact hmem

/-- C8: `validateDeleteConditions` accepts a condition list exactly when
every element is an object whose `column` is a non-blank string, whose
`value` is a string (the empty string is valid) or a non-empty list of
strings (an empty list is invalid), and which carries no property other than
`column` and `value`; it is a total function (never throws) accumulating
errors, and any other property on a condition yields an error naming that
property. -/
theorem validateDeleteConditions_spec (cs : List JVal) :
    ((validateDeleteConditions (some cs)).isValid = cs.all condOk) ∧
    (∀ (i : Nat) (fields : List (String × JVal)) (p : String) (v : JVal),
      cs[i]? = some (.jobj fields) → (p, v) ∈ fields →
      (p == "column" || p == "value") = false →
      ("deleteConditions[" ++ toString i ++ "] contains unexpected property '"
        ++ p ++ "'") ∈ (validateDeleteConditions (some cs)).errors) := by
  constructor
  · exact deleteCondErrorsFrom_isEmpty cs 0
  · intro i fields p v hget hmem hother
    show _ ∈ deleteCondErrorsFrom 0 cs
    apply mem_deleteCondErrorsFrom cs 0 i _ _ hget
    rw [Nat.zero_add]
    have hcond : (jsFalsy (JVal.jobj fields) || !typeofObject (JVal.jobj fields)) = false := rfl
    rw [condErrorsAt, hcond]
    simp only [Bool.false_eq_true, if_false]
    apply List.mem_append_right
    show _ ∈ extraErrorsAt i (JVal.jobj fields)
    rw [extraErrorsAt, jprops]
    apply List.mem_filterMap.mpr
    refine ⟨p, List.mem_map.mpr ⟨(p, v), hmem, rfl⟩, ?_⟩
    rw [if_neg (by simp [hother])]

/-- C8 witness: a condition object carrying the extra property `foo` is
reported by name, and the acceptance equation holds on this concrete list. -/
theorem validateDeleteConditions_spec_witness :
    ((validateDeleteConditions
        (some [.jobj [("column", .jstr "c"), ("value", .jstr "v"), ("foo", .jnull)]])).isValid
      = [JVal.jobj [("column", .jstr "c"), ("value", .jstr "v"), ("foo", .jnull)]].all condOk) ∧
    ("deleteConditions[0] contains unexpected property 'foo'"
      ∈ (validateDeleteConditions
          (some [.jobj [("column", .jstr "c"), ("value", .jstr "v"), ("foo", .jnull)]])).errors) := by
  refine ⟨(validateDeleteConditions_spec _).1, ?_⟩
  have h := (validateDeleteConditions_spec
      [.jobj [("column", .jstr "c"), ("value", .jstr "v"), ("foo", .jnull)]]).2
    0 [("column", .jstr "c"), ("value", .jstr "v"), ("foo", .jnull)] "foo" .jnull
    rfl (by simp) (by decide)
  have hstr : ("deleteConditions[" ++ toString (0 : Nat)
      ++ "] contains unexpected property '" ++ "foo" ++ "'")
      = "deleteConditions[0] contains unexpected property 'foo'" := by decide
  rw [hstr] at h
  exact h

end CSVConv
